import Mathlib

/-!
Verification of the multi-worker task orchestration engine of
`src/cli/commands/manage.ts` (class `AgentOrchestrator`).

The orchestrator's only external effects are language-model calls made
through `CustomAIAgent.processTask`; per the specification those calls are an
external capability. They are modelled here as oracle functions
(`LeadOracle`, `WorkerOracle`) returning `Except String String`: `.ok text`
for a resolved call and `.error msg` for a rejected one. Everything else
(task parsing, role selection, batching, status bookkeeping, success
aggregation, cross-validation verdict parsing) is translated directly from
the TypeScript source. Wall-clock timestamps (`startTime`/`endTime`,
timeline timestamps) are not modelled; the timeline's event ordering is
modelled by the `Call` trace each executor produces.
-/

namespace Manage

set_option maxRecDepth 100000

/-- Decidable equality for `Except`, so that concrete runs of the model can
be checked by `decide`. -/
instance {ε α : Type} [DecidableEq ε] [DecidableEq α] : DecidableEq (Except ε α) := fun
  | .ok a, .ok b =>
    match decEq a b with
    | isTrue h => isTrue (h ▸ rfl)
    | isFalse h => isFalse (fun hc => h (Except.ok.inj hc))
  | .ok _, .error _ => isFalse (fun hc => Except.noConfusion hc)
  | .error _, .ok _ => isFalse (fun hc => Except.noConfusion hc)
  | .error e, .error f =>
    match decEq e f with
    | isTrue h => isTrue (h ▸ rfl)
    | isFalse h => isFalse (fun hc => h (Except.error.inj hc))

/-- Task status, from the `Task` interface of `manage.ts`:
`'pending' | 'in_progress' | 'completed' | 'failed'`. -/
inductive TaskStatus where
  | pending
  | inProgress
  | completed
  | failed
deriving Repr, DecidableEq

/-- Result recorded on a task: on success the worker's result object
(essential payload: its result text), on failure `{ error: error.message }`. -/
inductive TaskResult where
  | ok (r : String)
  | err (e : String)
deriving Repr, DecidableEq

/-- The `Task` interface of `manage.ts`. `priority` is kept as a raw string
because `parseTaskBreakdown` stores whatever lowercased text followed a
`Priority:` marker (the TypeScript cast `as any` bypasses the union type).
`startTime`/`endTime` are wall-clock and not modelled. -/
structure Task where
  id : String
  description : String
  priority : String
  dependencies : List String
  status : TaskStatus
  assignedAgent : Option String := none
  result : Option TaskResult := none
deriving Repr, DecidableEq

/-! ### JavaScript string primitives

The orchestration code uses `toLowerCase`, `trim`, `startsWith`, `replace`
of a fixed prefix, `split` on a single-character separator, `includes` and
`join`. They are modelled by structurally recursive functions on the
string's character list (ASCII lowercasing, which covers the keyword
alphabet involved). -/

/-- `String.prototype.toLowerCase` (ASCII range). -/
def jsToLower (s : String) : String := ⟨s.data.map Char.toLower⟩

/-- Split a character list at a separator character; never returns `[]`
(an empty input gives `[[]]`, matching `''.split(sep) = ['']`). -/
def splitChar (sep : Char) : List Char → List (List Char)
  | [] => [[]]
  | c :: rest =>
    match splitChar sep rest with
    | [] => [[]]
    | g :: gs => if c = sep then [] :: g :: gs else (c :: g) :: gs

/-- `String.prototype.split` with a one-character separator. -/
def jsSplit (s : String) (sep : Char) : List String :=
  (splitChar sep s.data).map (fun l => ⟨l⟩)

/-- `String.prototype.trim`. -/
def jsTrim (s : String) : String :=
  ⟨((s.data.dropWhile Char.isWhitespace).reverse.dropWhile Char.isWhitespace).reverse⟩

/-- `String.prototype.startsWith`. -/
def jsStartsWith (s pre : String) : Bool := pre.data.isPrefixOf s.data

/-- Drop the first `n` characters (`String.prototype.substring(n)`). -/
def jsDrop (s : String) (n : Nat) : String := ⟨s.data.drop n⟩

/-- `Array.prototype.join('\n')`. -/
def jsJoinLines : List String → String
  | [] => ""
  | [x] => x
  | x :: y :: rest => x ++ "\n" ++ jsJoinLines (y :: rest)

/-- JavaScript `String.prototype.includes` on unpacked characters:
`substrAux pat cs` is true iff `pat` occurs as a contiguous run in `cs`. -/
def substrAux (pat : List Char) : List Char → Bool
  | [] => pat.isEmpty
  | c :: rest => pat.isPrefixOf (c :: rest) || substrAux pat rest

/-- JavaScript `s.includes(pat)`. -/
def strIncludes (s pat : String) : Bool :=
  substrAux pat.toList s.toList

/-- `selectBestAgent` of `manage.ts`: keyword dispatch on the lowercased
task description, first match wins, defaulting to `developer`. -/
def selectBestAgent (task : Task) : String :=
  let taskText := jsToLower task.description
  if strIncludes taskText "architecture" || strIncludes taskText "design" ||
      strIncludes taskText "plan" then "architect"
  else if strIncludes taskText "test" || strIncludes taskText "quality" ||
      strIncludes taskText "bug" then "tester"
  else if strIncludes taskText "document" || strIncludes taskText "readme" ||
      strIncludes taskText "guide" then "documenter"
  else if strIncludes taskText "review" || strIncludes taskText "improve" ||
      strIncludes taskText "refactor" then "reviewer"
  else "developer"

/-- `selectSecondaryAgent` of `manage.ts` (its `task` parameter is unused by
the source body). The fallback `agents[0]` picks the first member key
different from the primary, in the insertion order of `initializeTeam`. -/
def selectSecondaryAgent (primaryAgent : String) : String :=
  if primaryAgent = "developer" then "reviewer"
  else if primaryAgent = "architect" then "developer"
  else if primaryAgent = "tester" then "developer"
  else if primaryAgent = "reviewer" then "developer"
  else if primaryAgent = "documenter" then "reviewer"
  else ((["architect", "developer", "tester", "reviewer", "documenter"].filter
      (fun a => a ≠ primaryAgent)).headD "developer")

/-- `this.team.roles.get(agent)?.name` for the five roles installed by
`initializeTeam`; an unknown key stringifies as `undefined` in the
template literal. -/
def roleName (agent : String) : String :=
  if agent = "architect" then "Software Architect"
  else if agent = "developer" then "Senior Developer"
  else if agent = "tester" then "QA Engineer"
  else if agent = "reviewer" then "Code Reviewer"
  else if agent = "documenter" then "Technical Writer"
  else "undefined"

/-- The in-progress record `currentTask : Partial<Task>` of
`parseTaskBreakdown`; absent fields are `none`. -/
structure PartialTask where
  description : Option String := none
  priority : Option String := none
  dependencies : Option (List String) := none
deriving Repr, DecidableEq

/-- `trimmed.replace(/^(Task:|-)/, '')`: strip one leading task marker. -/
def stripTaskMarker (s : String) : String :=
  if jsStartsWith s "Task:" then jsDrop s 5
  else if jsStartsWith s "-" then jsDrop s 1
  else s

/-- The `tasks.push(...)` guard of `parseTaskBreakdown`: a task is flushed
only when `currentTask.description` is truthy (present and non-empty), with
`currentTask.priority || 'medium'` and `currentTask.dependencies || []`
defaults (note `""` is falsy in JavaScript but `[]` is truthy). -/
def flushTask (tasks : List Task) (cur : PartialTask) : List Task :=
  match cur.description with
  | none => tasks
  | some d =>
    if d = "" then tasks
    else tasks ++ [{
      id := "task-" ++ toString (tasks.length + 1),
      description := d,
      priority := (match cur.priority with
        | none => "medium"
        | some p => if p = "" then "medium" else p),
      dependencies := cur.dependencies.getD [],
      status := .pending }]

/-- One iteration of the line loop of `parseTaskBreakdown`. -/
def parseStep (acc : List Task × PartialTask) (line : String) :
    List Task × PartialTask :=
  let trimmed := jsTrim line
  if jsStartsWith trimmed "Task:" || jsStartsWith trimmed "-" then
    (flushTask acc.1 acc.2,
     { description := some (jsTrim (stripTaskMarker trimmed)),
       priority := some "medium",
       dependencies := some [] })
  else if jsStartsWith trimmed "Priority:" then
    (acc.1, { acc.2 with priority := some (jsToLower (jsTrim (jsDrop trimmed 9))) })
  else if jsStartsWith trimmed "Depends on:" then
    let deps := (jsSplit (jsTrim (jsDrop trimmed 11)) ',').map jsTrim
    (acc.1, { acc.2 with dependencies := some (deps.filter (fun d => d.length > 0)) })
  else acc

/-- The line loop of `parseTaskBreakdown` plus the trailing flush, before
the non-empty fallback is applied. -/
def parseCore (analysisResult : String) : List Task :=
  let st := (jsSplit analysisResult '\n').foldl parseStep ([], {})
  flushTask st.1 st.2

/-- The fallback task `{ id: 'task-1', description: originalDescription,
priority: 'medium', dependencies: [], status: 'pending' }`. -/
def fallbackTask (originalDescription : String) : Task :=
  { id := "task-1", description := originalDescription, priority := "medium",
    dependencies := [], status := .pending }

/-- `parseTaskBreakdown` of `manage.ts`. -/
def parseTaskBreakdown (analysisResult originalDescription : String) :
    List Task :=
  let tasks := parseCore analysisResult
  if tasks.length > 0 then tasks else [fallbackTask originalDescription]

/-! ### Oracles and call traces -/

/-- The lead agent's language-model capability:
`(prompt, reasoning flag) ↦` resolved text or rejection message. -/
abbrev LeadOracle := String → Bool → Except String String

/-- The member workers' capability: `(agent role key, prompt) ↦` resolved
text or rejection message. `initializeTeam` creates exactly one
`CustomAIAgent` instance per role key, so a role key identifies a Worker
instance. -/
abbrev WorkerOracle := String → String → Except String String

/-- One observable language-model invocation, in program order. This models
the ordering content of the source's timestamped timeline. -/
inductive Call where
  | leadCall (prompt : String) (reasoning : Bool)
  | workerCall (agent : String) (prompt : String)
deriving Repr, DecidableEq

/-- What a strategy executor returns, together with the final state of the
task array it mutated and the trace of calls it made. -/
structure ExecResult where
  success : Bool
  tasks : List Task
  results : List String
  trace : List Call
deriving Repr, DecidableEq

/-! ### Prompts (template literals of `manage.ts`) -/

/-- The decomposition prompt of `analyzeAndBreakdownTask`;
`Array.from(this.team.roles.keys()).join(', ')` is the five fixed roles. -/
def breakdownPrompt (description : String) : String :=
  "Analyze this task and break it down into smaller, manageable subtasks: " ++
  description ++
  "\n      \n      Consider:\n      - Required skills and roles\n      - Task dependencies\n      - Priority levels\n      - Estimated complexity\n      - Required tools and resources\n      \n      Available roles: architect, developer, tester, reviewer, documenter"

/-- The lead-guidance prompt of `executeHierarchical`. -/
def guidancePrompt (task : Task) (agent : String) : String :=
  "Provide guidance for this task: " ++ task.description ++
  "\n        Agent: " ++ agent ++
  "\n        Role: " ++ roleName agent

/-- The prompt the assigned worker executes in `executeHierarchical`:
`` `${task.description}\n\nGuidance from lead: ${guidance.result}` ``. -/
def hierPrompt (description guidance : String) : String :=
  description ++ "\n\nGuidance from lead: " ++ guidance

/-- The secondary worker's prompt in `executeCollaborative`. -/
def collabPrompt (primaryResult description : String) : String :=
  "Review and improve this work: " ++ primaryResult ++
  "\n          Original task: " ++ description

/-- The cross-validation prompt of `crossValidate`. The two
`JSON.stringify` renderings of the result object and the contribution map
are abstracted as a rendering of the collected result texts; no claim
depends on this text, only on the identity of the call. -/
def validationPrompt (results : List String) : String :=
  "Cross-validate this work for quality, completeness, and correctness:\n      \n      Results: " ++
  jsJoinLines results ++
  "\n      \n      Provide:\n      1. Pass/fail assessment\n      2. List of issues found\n      3. Recommendations for improvement"

/-! ### Sequential strategy -/

/-- `executeSequential` of `manage.ts`. Each task is marked `in_progress`,
its worker is invoked, and the task is overwritten to `completed` or
`failed`; on failure with `retryOnFailure` false the loop returns
immediately (`success: false`, results so far), leaving the remaining tasks
untouched. -/
def executeSequential (retry : Bool) (w : WorkerOracle) : List Task → ExecResult
  | [] => ⟨true, [], [], []⟩
  | t :: ts =>
    let agent := selectBestAgent t
    match w agent t.description with
    | .ok r =>
      let t' : Task := { t with status := .completed, assignedAgent := some agent,
                                result := some (.ok r) }
      let rest := executeSequential retry w ts
      ⟨rest.success, t' :: rest.tasks, r :: rest.results,
       .workerCall agent t.description :: rest.trace⟩
    | .error e =>
      let t' : Task := { t with status := .failed, assignedAgent := some agent,
                                result := some (.err e) }
      if retry then
        let rest := executeSequential retry w ts
        ⟨rest.success, t' :: rest.tasks, rest.results,
         .workerCall agent t.description :: rest.trace⟩
      else
        ⟨false, t' :: ts, [], [.workerCall agent t.description]⟩

/-! ### Parallel strategy -/

/-- The per-task body of a parallel batch: final state of one batch member
(`completed` on a resolved call, `failed` on a rejected one — always a
terminal status). -/
def runBatchTask (w : WorkerOracle) (t : Task) : Task :=
  let agent := selectBestAgent t
  match w agent t.description with
  | .ok r => { t with status := .completed, assignedAgent := some agent,
                      result := some (.ok r) }
  | .error e => { t with status := .failed, assignedAgent := some agent,
                         result := some (.err e) }

/-- The settled outcome of one batch member's worker call. -/
def batchOutcome (w : WorkerOracle) (t : Task) : Except String String :=
  w (selectBestAgent t) t.description

/-- The `for (const result of batchResults)` loop of `executeParallel`:
walk the settled outcomes in batch order pushing fulfilled values; on the
first rejection, continue when `retryOnFailure` is true, otherwise stop
(first component `false` = abort the run). -/
def collectBatch (retry : Bool) : List (Except String String) → Bool × List String
  | [] => (true, [])
  | .ok r :: rest =>
    let c := collectBatch retry rest
    (c.1, r :: c.2)
  | .error _ :: rest =>
    if retry then collectBatch retry rest else (false, [])

/-- Fuelled chunking helper (structural recursion on the fuel so that
concrete runs reduce in the kernel); the fuel is always instantiated with
the list length, which suffices whenever `n > 0`. -/
def chunksAux (n : Nat) : List Task → Nat → List (List Task)
  | [], _ => []
  | t :: ts, 0 => [t :: ts]
  | t :: ts, fuel + 1 => ((t :: ts).take n) :: chunksAux n ((t :: ts).drop n) fuel

/-- The batch loop `for (let i = 0; i < tasks.length; i += maxConcurrency)`
with `tasks.slice(i, i + maxConcurrency)`: contiguous chunks of size `n`.
The `0` case is degenerate (in JavaScript a zero step never advances, so
the loop diverges); all theorems about the Parallel strategy assume
`maxConcurrency > 0`. -/
def chunks (n : Nat) (l : List Task) : List (List Task) :=
  match n with
  | 0 => match l with | [] => [] | _ => [l]
  | n + 1 => chunksAux (n + 1) l l.length

/-- The fuel of `chunksAux` is irrelevant as long as it bounds the list
length (and the chunk size is positive). -/
theorem chunksAux_congr (n : Nat) (hn : 0 < n) :
    ∀ (k : Nat) (l : List Task) (fuel fuel' : Nat), l.length ≤ k →
      l.length ≤ fuel → l.length ≤ fuel' → chunksAux n l fuel = chunksAux n l fuel' := by
  intro k
  induction k with
  | zero =>
    intro l fuel fuel' hk _ _
    cases l with
    | nil => cases fuel <;> cases fuel' <;> rfl
    | cons t ts => simp at hk
  | succ k ih =>
    intro l fuel fuel' hk hf hf'
    cases l with
    | nil => cases fuel <;> cases fuel' <;> rfl
    | cons t ts =>
      simp only [List.length_cons] at hk hf hf'
      obtain ⟨f, rfl⟩ : ∃ f, fuel = f + 1 := ⟨fuel - 1, by omega⟩
      obtain ⟨f', rfl⟩ : ∃ f', fuel' = f' + 1 := ⟨fuel' - 1, by omega⟩
      simp only [chunksAux]
      congr 1
      have h1 := ih ((t :: ts).drop n) f ((t :: ts).drop n).length
        (by simp; omega) (by simp; omega) (le_refl _)
      have h2 := ih ((t :: ts).drop n) f' ((t :: ts).drop n).length
        (by simp; omega) (by simp; omega) (le_refl _)
      rw [h1, h2]

theorem chunks_nil (n : Nat) : chunks n [] = [] := by cases n <;> rfl

/-- Unfolding equation for `chunks` on a non-empty list, for positive chunk
size: peel one contiguous chunk of `n` tasks. -/
theorem chunks_cons (n : Nat) (hn : 0 < n) (t : Task) (ts : List Task) :
    chunks n (t :: ts) = (t :: ts).take n :: chunks n ((t :: ts).drop n) := by
  obtain ⟨m, rfl⟩ : ∃ m, n = m + 1 := ⟨n - 1, by omega⟩
  show chunksAux (m + 1) (t :: ts) (ts.length + 1) =
    (t :: ts).take (m + 1) ::
      chunksAux (m + 1) ((t :: ts).drop (m + 1)) ((t :: ts).drop (m + 1)).length
  simp only [chunksAux]
  congr 1
  exact chunksAux_congr (m + 1) (by omega) ((t :: ts).drop (m + 1)).length _ _ _
    (le_refl _) (by simp) (le_refl _)

/-- The body of `executeParallel` on the batch list: every member of a
batch is executed (fan-out), then the settled outcomes are collected
(fan-in barrier); an abort leaves the remaining batches untouched. -/
def executeParallelGo (retry : Bool) (w : WorkerOracle) : List (List Task) → ExecResult
  | [] => ⟨true, [], [], []⟩
  | b :: bs =>
    let tasksDone := b.map (runBatchTask w)
    let calls := b.map (fun t => Call.workerCall (selectBestAgent t) t.description)
    let c := collectBatch retry (b.map (batchOutcome w))
    if c.1 then
      let rest := executeParallelGo retry w bs
      ⟨rest.success, tasksDone ++ rest.tasks, c.2 ++ rest.results, calls ++ rest.trace⟩
    else
      ⟨false, tasksDone ++ bs.flatten, c.2, calls⟩

/-- `executeParallel` of `manage.ts`. -/
def executeParallel (retry : Bool) (w : WorkerOracle) (maxConcurrency : Nat)
    (tasks : List Task) : ExecResult :=
  executeParallelGo retry w (chunks maxConcurrency tasks)

/-! ### Hierarchical strategy -/

/-- `priorityOrder.indexOf(p)` for
`priorityOrder = ['urgent', 'high', 'medium', 'low']` (`-1` if absent). -/
def priorityIndex (p : String) : Int :=
  if p = "urgent" then 0
  else if p = "high" then 1
  else if p = "medium" then 2
  else if p = "low" then 3
  else -1

/-- Stable insertion used to model `tasks.sort((a, b) => priorityOrder.indexOf(a.priority) - priorityOrder.indexOf(b.priority))`:
the inserted element comes from earlier in the original list than everything
already placed, so it goes before the first element of equal or larger key. -/
def insertTask (t : Task) : List Task → List Task
  | [] => [t]
  | u :: us =>
    if priorityIndex t.priority ≤ priorityIndex u.priority then t :: u :: us
    else u :: insertTask t us

/-- `Array.prototype.sort` with the priority comparator. ECMAScript 2019
requires `sort` to be stable, so it is modelled as a stable insertion sort:
sorted by `priorityIndex` and preserving the original relative order of
equal-priority tasks. -/
def sortTasks (l : List Task) : List Task :=
  l.foldr insertTask []

/-- The per-task loop body of `executeHierarchical` on the sorted list.
The lead guidance call happens outside the `try` block of the source, so a
rejected guidance call unwinds out of the executor (`.error`). -/
def executeHierarchicalGo (retry : Bool) (l : LeadOracle) (w : WorkerOracle) :
    List Task → Except String ExecResult
  | [] => .ok ⟨true, [], [], []⟩
  | t :: ts =>
    let agent := selectBestAgent t
    match l (guidancePrompt t agent) false with
    | .error e => .error e
    | .ok g =>
      let prompt := hierPrompt t.description g
      let calls := [Call.leadCall (guidancePrompt t agent) false,
                    Call.workerCall agent prompt]
      match w agent prompt with
      | .ok r =>
        match executeHierarchicalGo retry l w ts with
        | .error e => .error e
        | .ok rest =>
          .ok ⟨rest.success,
               { t with status := .completed, assignedAgent := some agent,
                        result := some (.ok r) } :: rest.tasks,
               r :: rest.results, calls ++ rest.trace⟩
      | .error e =>
        let t' : Task := { t with status := .failed, assignedAgent := some agent,
                                  result := some (.err e) }
        if retry then
          match executeHierarchicalGo retry l w ts with
          | .error e2 => .error e2
          | .ok rest =>
            .ok ⟨rest.success, t' :: rest.tasks, rest.results, calls ++ rest.trace⟩
        else
          .ok ⟨false, t' :: ts, [], calls⟩

/-- `executeHierarchical` of `manage.ts`: sort by priority, then run the
guided per-task loop. -/
def executeHierarchical (retry : Bool) (l : LeadOracle) (w : WorkerOracle)
    (tasks : List Task) : Except String ExecResult :=
  executeHierarchicalGo retry l w (sortTasks tasks)

/-! ### Collaborative strategy -/

/-- `executeCollaborative` of `manage.ts`: a primary worker produces an
initial result, a secondary worker reviews it; the task's recorded result
is the combined object whose `final` field is the secondary's output
(modelled by its essential payload). Failure of either stage is caught and
marks the task failed. -/
def executeCollaborative (retry : Bool) (w : WorkerOracle) : List Task → ExecResult
  | [] => ⟨true, [], [], []⟩
  | t :: ts =>
    let primary := selectBestAgent t
    let secondary := selectSecondaryAgent primary
    match w primary t.description with
    | .ok pr =>
      let calls := [Call.workerCall primary t.description,
                    Call.workerCall secondary (collabPrompt pr t.description)]
      match w secondary (collabPrompt pr t.description) with
      | .ok sr =>
        let t' : Task := { t with status := .completed, assignedAgent := some primary,
                                  result := some (.ok sr) }
        let rest := executeCollaborative retry w ts
        ⟨rest.success, t' :: rest.tasks, sr :: rest.results, calls ++ rest.trace⟩
      | .error e =>
        let t' : Task := { t with status := .failed, assignedAgent := some primary,
                                  result := some (.err e) }
        if retry then
          let rest := executeCollaborative retry w ts
          ⟨rest.success, t' :: rest.tasks, rest.results, calls ++ rest.trace⟩
        else
          ⟨false, t' :: ts, [], calls⟩
    | .error e =>
      let t' : Task := { t with status := .failed, assignedAgent := some primary,
                                result := some (.err e) }
      if retry then
        let rest := executeCollaborative retry w ts
        ⟨rest.success, t' :: rest.tasks, rest.results,
         Call.workerCall primary t.description :: rest.trace⟩
      else
        ⟨false, t' :: ts, [], [Call.workerCall primary t.description]⟩

/-! ### Cross-validation and the orchestrator façade -/

/-- The verdict test of `crossValidate`:
`validationText.includes('pass') && !validationText.includes('fail')` on the
lowercased response. -/
def validationPassed (resp : String) : Bool :=
  strIncludes (jsToLower resp) "pass" && !(strIncludes (jsToLower resp) "fail")

/-- `extractIssues` of `manage.ts`: trimmed lines starting `"- "` whose
lowercased text mentions `issue` or `problem`, with the marker stripped. -/
def extractIssues (text : String) : List String :=
  (((jsSplit text '\n')).filter (fun line =>
      jsStartsWith (jsTrim line) "- " &&
      (strIncludes (jsToLower line) "issue" || strIncludes (jsToLower line) "problem"))).map
    (fun line => jsDrop (jsTrim line) 2)

/-- `extractRecommendations` of `manage.ts`. -/
def extractRecommendations (text : String) : List String :=
  (((jsSplit text '\n')).filter (fun line =>
      jsStartsWith (jsTrim line) "- " &&
      (strIncludes (jsToLower line) "recommend" || strIncludes (jsToLower line) "suggest"))).map
    (fun line => jsDrop (jsTrim line) 2)

/-- The `OrchestrationStrategy` interface of `manage.ts`. -/
inductive StrategyType where
  | sequential
  | parallel
  | hierarchical
  | collaborative
deriving Repr, DecidableEq

/-- `OrchestrationStrategy` of `manage.ts`. -/
structure OrchestrationStrategy where
  type : StrategyType
  maxConcurrency : Nat
  retryOnFailure : Bool
  crossValidation : Bool
deriving Repr, DecidableEq

/-- The value `orchestrateTask` resolves with (its timestamped timeline is
modelled by the call trace, its contribution map is recoverable from the
per-task results and assigned agents). `validationIssues` is the
`result.validationIssues` field attached on a failed validation. -/
structure RunReport where
  success : Bool
  results : List String
  taskBreakdown : List Task
  trace : List Call
  validationIssues : List String
deriving Repr, DecidableEq

/-- The `switch (strategy.type)` dispatch of `orchestrateTask`. Only the
hierarchical executor can reject (through its unguarded guidance call). -/
def execStrategy (s : OrchestrationStrategy) (l : LeadOracle) (w : WorkerOracle)
    (tasks : List Task) : Except String ExecResult :=
  match s.type with
  | .sequential => .ok (executeSequential s.retryOnFailure w tasks)
  | .parallel => .ok (executeParallel s.retryOnFailure w s.maxConcurrency tasks)
  | .hierarchical => executeHierarchical s.retryOnFailure l w tasks
  | .collaborative => .ok (executeCollaborative s.retryOnFailure w tasks)

/-- `orchestrateTask` of `manage.ts`: decompose via the lead (unguarded —
a rejected breakdown call propagates), execute the chosen strategy, then
cross-validate when enabled and the strategy succeeded (the reviewer call
is likewise unguarded). -/
def orchestrateTask (s : OrchestrationStrategy) (l : LeadOracle) (w : WorkerOracle)
    (description : String) : Except String RunReport :=
  match l (breakdownPrompt description) true with
  | .error e => .error e
  | .ok analysis =>
    let tasks := parseTaskBreakdown analysis description
    match execStrategy s l w tasks with
    | .error e => .error e
    | .ok er =>
      let baseTrace := Call.leadCall (breakdownPrompt description) true :: er.trace
      if s.crossValidation && er.success then
        match w "reviewer" (validationPrompt er.results) with
        | .error e => .error e
        | .ok resp =>
          if validationPassed resp then
            .ok ⟨true, er.results, er.tasks,
                 baseTrace ++ [.workerCall "reviewer" (validationPrompt er.results)], []⟩
          else
            .ok ⟨false, er.results, er.tasks,
                 baseTrace ++ [.workerCall "reviewer" (validationPrompt er.results)],
                 extractIssues resp⟩
      else
        .ok ⟨er.success, er.results, er.tasks, baseTrace, []⟩

/-! ### Spec-side definition for the Role Selector refinement claim -/

/-- The Role Selector as the specification words it (§4.2): precedence
architecture/design/plan → architect, quality/bug/test → tester,
document/guide/readme → documenter, review/improve/refactor → reviewer,
default developer; a pure function of the task text. Written from the
spec's words, to be compared with `selectBestAgent` from the source. -/
def roleSelectorSpec (text : String) : String :=
  let t := jsToLower text
  if strIncludes t "architecture" || strIncludes t "design" ||
      strIncludes t "plan" then "architect"
  else if strIncludes t "quality" || strIncludes t "bug" ||
      strIncludes t "test" then "tester"
  else if strIncludes t "document" || strIncludes t "guide" ||
      strIncludes t "readme" then "documenter"
  else if strIncludes t "review" || strIncludes t "improve" ||
      strIncludes t "refactor" then "reviewer"
  else "developer"

/-! ## Claim C8: the Role Selector -/

/-- **C8.** The Role Selector is a pure, deterministic function of the task
text with the fixed precedence the spec states (architecture/design/plan →
architect, else quality/bug/test → tester, else document/guide/readme →
documenter, else review/improve/refactor → reviewer, else developer, first
match wins): `selectBestAgent` coincides with the spec-worded chain on the
task's description text for every task, and the work item
"Fix typo in README" selects the documenter role. -/
theorem C8_role_selector :
    (∀ t : Task, selectBestAgent t = roleSelectorSpec t.description) ∧
    selectBestAgent (fallbackTask "Fix typo in README") = "documenter" := by
  constructor
  · intro t
    simp only [selectBestAgent, roleSelectorSpec]
    cases h1 : strIncludes (jsToLower t.description) "test" <;>
      cases h2 : strIncludes (jsToLower t.description) "quality" <;>
        cases h3 : strIncludes (jsToLower t.description) "bug" <;>
          cases h4 : strIncludes (jsToLower t.description) "document" <;>
            cases h5 : strIncludes (jsToLower t.description) "readme" <;>
              cases h6 : strIncludes (jsToLower t.description) "guide" <;>
                simp [h1, h2, h3, h4, h5, h6]
  · decide

/-! ## Claim C9: non-empty decomposition with whole-item fallback -/

/-- **C9.** For every language-model response text and every work item
(including the empty string), `parseTaskBreakdown` returns a task list of
length ≥ 1; when the line parse yields no tasks, the single fallback task
has the entire original work item as its description and priority
`medium` (`fallbackTask`). -/
theorem C9_decomposer_nonempty :
    (∀ analysis d : String, 1 ≤ (parseTaskBreakdown analysis d).length) ∧
    (∀ analysis d : String, parseCore analysis = [] →
      parseTaskBreakdown analysis d = [fallbackTask d]) := by
  constructor
  · intro a d
    simp only [parseTaskBreakdown]
    split
    · omega
    · simp
  · intro a d h
    unfold parseTaskBreakdown
    simp [h]

/-- Witness for C9: the response "no markers here" parses to no task lines,
so the fallback task carries the whole work item with priority medium. -/
theorem C9_decomposer_nonempty_witness :
    1 ≤ (parseTaskBreakdown "no markers here" "ship the release").length ∧
    parseTaskBreakdown "no markers here" "ship the release" =
      [fallbackTask "ship the release"] :=
  ⟨C9_decomposer_nonempty.1 "no markers here" "ship the release",
   C9_decomposer_nonempty.2 "no markers here" "ship the release" (by decide)⟩

/-! ## Claim C1: which failures surface to the caller -/

/-- **C1, counterexample.** The claim says orchestrateTask returns a Run
Report rather than throwing for every failure category except
construction-time configuration errors, and that decomposition
language-model call errors are recovered locally. At these concrete inputs
it is false twice over: a rejected decomposition call propagates out of
`orchestrateTask` as a hard error (the `analyzeAndBreakdownTask` call has
no `try`/`catch`), and in the hierarchical strategy a rejected lead
guidance call — made outside the executor's `try` block — likewise unwinds
past the strategy executor to the caller. -/
theorem C1_counterexample :
    orchestrateTask ⟨.sequential, 3, true, false⟩
        (fun _ _ => .error "llm unavailable") (fun _ _ => .ok "done")
        "Build the app" = .error "llm unavailable" ∧
    orchestrateTask ⟨.hierarchical, 3, true, false⟩
        (fun p _ => if p = breakdownPrompt "d" then .ok "- alpha"
                    else .error "guidance down")
        (fun _ _ => .ok "done") "d" = .error "guidance down" := by
  constructor
  · rfl
  · decide

/-- **C1, amended.** Worker (team-member) errors during task execution are
always caught by the strategy executors and never unwind to the caller,
and unparseable decomposition output is recovered by the single-fallback
task; but an error from the decomposition language-model call itself
propagates to the caller as a hard error (as do the hierarchical lead
guidance call and the cross-validation reviewer call, which are likewise
unguarded). Hence: for the sequential, parallel and collaborative
strategies, with cross-validation disabled, once the decomposition call
resolves, `orchestrateTask` returns a Run Report for every worker oracle —
no pattern of worker failures can make it throw. -/
theorem C1_amended (s : OrchestrationStrategy) (l : LeadOracle) (w : WorkerOracle)
    (d analysis : String)
    (htype : s.type = .sequential ∨ s.type = .parallel ∨ s.type = .collaborative)
    (hcv : s.crossValidation = false)
    (hbd : l (breakdownPrompt d) true = .ok analysis) :
    ∃ r, orchestrateTask s l w d = .ok r := by
  simp only [orchestrateTask, hbd]
  have hex : ∃ er, execStrategy s l w (parseTaskBreakdown analysis d) = .ok er := by
    rcases htype with h | h | h <;> simp [execStrategy, h]
  rcases hex with ⟨er, her⟩
  rw [her]
  simp [hcv]

/-- Witness for C1 (amended): a concrete sequential run whose only worker
call fails still resolves with a Run Report. -/
theorem C1_amended_witness :
    ∃ r, orchestrateTask ⟨.sequential, 3, false, false⟩
        (fun _ _ => .ok "- alpha") (fun _ _ => .error "worker down") "d" = .ok r :=
  C1_amended ⟨.sequential, 3, false, false⟩ (fun _ _ => .ok "- alpha")
    (fun _ _ => .error "worker down") "d" "- alpha" (Or.inl rfl) rfl rfl

/-! ## Claim C2: every reported task is terminal -/

/-- **C2, counterexample.** The claim says every task in a returned Run
Report has final status `completed` or `failed`. At this concrete input —
sequential strategy, `retryOnFailure = false`, two decomposed tasks, first
worker call failing — `executeSequential` returns early and the second
task is reported with status `pending`. -/
theorem C2_counterexample :
    (orchestrateTask ⟨.sequential, 3, false, false⟩
        (fun _ _ => .ok "- alpha\n- beta")
        (fun _ p => if p = "alpha" then .error "boom" else .ok "done")
        "d").map
      (fun r => (r.success, r.taskBreakdown.map (fun t => t.status))) =
      .ok (false, [.failed, .pending]) := by decide

/-! ## Claim C3: role distinctness inside a Parallel batch -/

/-- **C3, counterexample.** The claim says no two tasks dispatched
concurrently within the same Parallel batch are ever assigned the same
role/Worker instance. At this concrete input two decomposed tasks whose
texts both contain "test" fall into one batch (`maxConcurrency = 2`, two
tasks, a single batch) and both are assigned role `tester`; since
`initializeTeam` creates exactly one `CustomAIAgent` per role key, they
share one Worker instance. -/
theorem C3_counterexample :
    (parseTaskBreakdown "- test alpha\n- test beta" "d").map selectBestAgent =
      ["tester", "tester"] ∧
    chunks 2 (parseTaskBreakdown "- test alpha\n- test beta" "d") =
      [parseTaskBreakdown "- test alpha\n- test beta" "d"] ∧
    (orchestrateTask ⟨.parallel, 2, false, false⟩
        (fun _ _ => .ok "- test alpha\n- test beta") (fun _ _ => .ok "done")
        "d").map (fun r => r.taskBreakdown.map (fun t => t.assignedAgent)) =
      .ok [some "tester", some "tester"] := by
  refine ⟨by decide, by decide, by decide⟩

/-- **C3, amended.** The Parallel strategy enforces no distinctness: each
task in a batch is assigned exactly the role `selectBestAgent` returns for
its own text, independently of the other batch members, so two tasks in
the same batch whose texts select the same role share that role's single
Worker instance. -/
theorem C3_amended (w : WorkerOracle) (batch : List Task) :
    (batch.map (runBatchTask w)).map (fun t => t.assignedAgent) =
      batch.map (fun t => some (selectBestAgent t)) := by
  induction batch with
  | nil => rfl
  | cons t ts ih =>
    simp only [List.map_cons, ih, List.cons.injEq, and_true]
    cases h : w (selectBestAgent t) t.description <;> simp [runBatchTask, h]

/-! ## Claim C4: hierarchical guidance placement -/

/-- **C4, counterexample.** The claim says the Lead's guidance text is
prepended to the task description in the prompt the Worker executes. At
this concrete input (description `"D"`, guidance `"G"`) the worker prompt
is `"D\n\nGuidance from lead: G"`: it starts with the description, not
with the guidance — the guidance is appended, not prepended. -/
theorem C4_counterexample :
    (executeHierarchical false (fun _ _ => .ok "G") (fun _ _ => .ok "done")
        [fallbackTask "D"]).map (fun er => er.trace) =
      .ok [.leadCall (guidancePrompt (fallbackTask "D") "developer") false,
           .workerCall "developer" "D\n\nGuidance from lead: G"] ∧
    jsStartsWith "D\n\nGuidance from lead: G" "G" = false ∧
    jsStartsWith "D\n\nGuidance from lead: G" "D" = true := by
  refine ⟨by decide, by decide, by decide⟩

/-- **C4, amended.** In the Hierarchical strategy, for every task the Lead
worker is first consulted (with reasoning disabled) for guidance specific
to that task and its assigned role, and this guidance text is *appended*
to the task description (as a `"\n\nGuidance from lead: "` suffix) in the
prompt the assigned Worker executes; the Lead never executes the task
itself — the task is executed by the worker `selectBestAgent` picks. -/
theorem C4_amended (retry : Bool) (l : LeadOracle) (w : WorkerOracle) (t : Task)
    (g r : String)
    (hg : l (guidancePrompt t (selectBestAgent t)) false = .ok g)
    (hw : w (selectBestAgent t) (hierPrompt t.description g) = .ok r) :
    executeHierarchical retry l w [t] =
      .ok ⟨true,
           [{ t with status := .completed,
                     assignedAgent := some (selectBestAgent t),
                     result := some (.ok r) }],
           [r],
           [.leadCall (guidancePrompt t (selectBestAgent t)) false,
            .workerCall (selectBestAgent t) (hierPrompt t.description g)]⟩ := by
  have hsort : sortTasks [t] = [t] := rfl
  unfold executeHierarchical
  rw [hsort]
  simp [executeHierarchicalGo, hg, hw]

/-- Witness for C4 (amended): a concrete one-task hierarchical run. -/
theorem C4_amended_witness :
    executeHierarchical true (fun _ _ => .ok "mind the edge cases")
        (fun _ _ => .ok "done") [fallbackTask "D"] =
      .ok ⟨true,
           [{ id := "task-1", description := "D", priority := "medium",
              dependencies := [], status := .completed,
              assignedAgent := some "developer",
              result := some (.ok "done") }],
           ["done"],
           [.leadCall (guidancePrompt (fallbackTask "D") "developer") false,
            .workerCall "developer" (hierPrompt "D" "mind the edge cases")]⟩ :=
  C4_amended true (fun _ _ => .ok "mind the edge cases") (fun _ _ => .ok "done")
    (fallbackTask "D") "mind the edge cases" "done" rfl rfl

/-! ### Status bookkeeping lemmas -/

theorem flushTask_pending (tasks : List Task) (cur : PartialTask) :
    ∀ t ∈ flushTask tasks cur, t ∈ tasks ∨ t.status = .pending := by
  intro t ht
  unfold flushTask at ht
  rcases hd : cur.description with _ | d
  · rw [hd] at ht; exact Or.inl ht
  · rw [hd] at ht
    by_cases he : d = ""
    · simp [he] at ht; exact Or.inl ht
    · simp [he] at ht
      rcases ht with h | h
      · exact Or.inl h
      · right; rw [h]

theorem parseStep_pending (acc : List Task × PartialTask) (line : String) :
    ∀ t ∈ (parseStep acc line).1, t ∈ acc.1 ∨ t.status = .pending := by
  intro t ht
  simp only [parseStep] at ht
  split at ht
  · exact flushTask_pending acc.1 acc.2 t ht
  · split at ht
    · exact Or.inl ht
    · split at ht
      · exact Or.inl ht
      · exact Or.inl ht

theorem foldl_parseStep_pending (lines : List String) :
    ∀ acc : List Task × PartialTask, (∀ t ∈ acc.1, t.status = .pending) →
      ∀ t ∈ (lines.foldl parseStep acc).1, t.status = .pending := by
  induction lines with
  | nil => intro acc hacc t ht; exact hacc t ht
  | cons line rest ih =>
    intro acc hacc t ht
    refine ih (parseStep acc line) ?_ t ht
    intro u hu
    rcases parseStep_pending acc line u hu with h | h
    · exact hacc u h
    · exact h

theorem parseTaskBreakdown_pending (a d : String) :
    ∀ t ∈ parseTaskBreakdown a d, t.status = .pending := by
  intro t ht
  simp only [parseTaskBreakdown] at ht
  split at ht
  · simp only [parseCore] at ht
    rcases flushTask_pending _ _ t ht with h | h
    · exact foldl_parseStep_pending _ ([], {}) (by intro u hu; simp at hu) t h
    · exact h
  · simp at ht; rw [ht]; rfl

theorem executeSequential_mem (retry : Bool) (w : WorkerOracle) :
    ∀ ts : List Task, ∀ t' ∈ (executeSequential retry w ts).tasks,
      t'.status = .completed ∨ t'.status = .failed ∨ t' ∈ ts := by
  intro ts
  induction ts with
  | nil => intro t' ht'; simp [executeSequential] at ht'
  | cons t ts ih =>
    intro t' ht'
    cases h : w (selectBestAgent t) t.description with
    | ok r =>
      simp only [executeSequential, h] at ht'
      rcases List.mem_cons.mp ht' with rfl | ht'
      · exact Or.inl rfl
      · rcases ih t' ht' with h1 | h1 | h1
        · exact Or.inl h1
        · exact Or.inr (Or.inl h1)
        · exact Or.inr (Or.inr (List.mem_cons_of_mem t h1))
    | error e =>
      cases retry with
      | true =>
        simp only [executeSequential, h, if_true] at ht'
        rcases List.mem_cons.mp ht' with rfl | ht'
        · exact Or.inr (Or.inl rfl)
        · rcases ih t' ht' with h1 | h1 | h1
          · exact Or.inl h1
          · exact Or.inr (Or.inl h1)
          · exact Or.inr (Or.inr (List.mem_cons_of_mem t h1))
      | false =>
        simp only [executeSequential, h, Bool.false_eq_true, if_false] at ht'
        rcases List.mem_cons.mp ht' with rfl | ht'
        · exact Or.inr (Or.inl rfl)
        · exact Or.inr (Or.inr (List.mem_cons_of_mem t ht'))

theorem executeSequential_retry_terminal (w : WorkerOracle) :
    ∀ ts : List Task, ∀ t' ∈ (executeSequential true w ts).tasks,
      t'.status = .completed ∨ t'.status = .failed := by
  intro ts
  induction ts with
  | nil => intro t' ht'; simp [executeSequential] at ht'
  | cons t ts ih =>
    intro t' ht'
    cases h : w (selectBestAgent t) t.description with
    | ok r =>
      simp only [executeSequential, h] at ht'
      rcases List.mem_cons.mp ht' with rfl | ht'
      · exact Or.inl rfl
      · exact ih t' ht'
    | error e =>
      simp only [executeSequential, h, if_true] at ht'
      rcases List.mem_cons.mp ht' with rfl | ht'
      · exact Or.inr rfl
      · exact ih t' ht'

theorem executeSequential_retry_success (w : WorkerOracle) :
    ∀ ts : List Task, (executeSequential true w ts).success = true := by
  intro ts
  induction ts with
  | nil => rfl
  | cons t ts ih =>
    cases h : w (selectBestAgent t) t.description <;>
      simp only [executeSequential, h, if_true] <;> exact ih

theorem runBatchTask_terminal (w : WorkerOracle) (t : Task) :
    (runBatchTask w t).status = .completed ∨ (runBatchTask w t).status = .failed := by
  cases h : w (selectBestAgent t) t.description <;> simp [runBatchTask, h]

theorem collectBatch_retry_true (l : List (Except String String)) :
    (collectBatch true l).1 = true := by
  induction l with
  | nil => rfl
  | cons x rest ih => cases x <;> simpa [collectBatch] using ih

theorem collectBatch_false (retry : Bool) (l : List (Except String String))
    (h : (collectBatch retry l).1 = false) :
    retry = false ∧ ∃ e, Except.error e ∈ l := by
  induction l with
  | nil => simp [collectBatch] at h
  | cons x rest ih =>
    cases x with
    | ok r =>
      simp only [collectBatch] at h
      rcases ih h with ⟨hr, e, he⟩
      exact ⟨hr, e, List.mem_cons_of_mem _ he⟩
    | error e =>
      cases retry with
      | true =>
        simp only [collectBatch, if_true] at h
        rcases ih h with ⟨hr, _⟩
        exact absurd hr (by simp)
      | false => exact ⟨rfl, e, List.mem_cons_self _ _⟩

theorem collectBatch_false_of_mem (l : List (Except String String)) (e : String)
    (he : Except.error e ∈ l) : (collectBatch false l).1 = false := by
  induction l with
  | nil => simp at he
  | cons x rest ih =>
    cases x with
    | ok r =>
      rcases List.mem_cons.mp he with h | h
      · exact absurd h (by simp)
      · simpa [collectBatch] using ih h
    | error f => simp [collectBatch]

theorem chunks_mem (n : Nat) :
    ∀ (k : Nat) (l : List Task), l.length ≤ k →
      ∀ b ∈ chunks n l, ∀ x ∈ b, x ∈ l := by
  intro k
  induction k with
  | zero =>
    intro l hk b hb x hx
    have : l = [] := List.eq_nil_of_length_eq_zero (by omega)
    subst this
    rw [chunks_nil] at hb
    simp at hb
  | succ k ih =>
    intro l hk b hb x hx
    cases l with
    | nil => rw [chunks_nil] at hb; simp at hb
    | cons t ts =>
      rcases Nat.eq_zero_or_pos n with hn | hn
      · subst hn
        simp only [chunks] at hb
        simp at hb
        subst hb
        exact hx
      · rw [chunks_cons n hn] at hb
        rcases List.mem_cons.mp hb with rfl | hb
        · exact List.mem_of_mem_take hx
        · have hx' := ih ((t :: ts).drop n) (by simp at hk ⊢; omega) b hb x hx
          exact List.mem_of_mem_drop hx'

theorem chunks_flatten (n : Nat) (hn : 0 < n) :
    ∀ (k : Nat) (l : List Task), l.length ≤ k → (chunks n l).flatten = l := by
  intro k
  induction k with
  | zero =>
    intro l hk
    have : l = [] := List.eq_nil_of_length_eq_zero (by omega)
    subst this
    rw [chunks_nil]; rfl
  | succ k ih =>
    intro l hk
    cases l with
    | nil => rw [chunks_nil]; rfl
    | cons t ts =>
      rw [chunks_cons n hn]
      simp only [List.flatten_cons]
      rw [ih ((t :: ts).drop n) (by simp at hk ⊢; omega)]
      exact List.take_append_drop n (t :: ts)

theorem chunks_sizes (n : Nat) (hn : 0 < n) :
    ∀ (k : Nat) (l : List Task), l.length ≤ k →
      ∀ b ∈ chunks n l, 0 < b.length ∧ b.length ≤ n := by
  intro k
  induction k with
  | zero =>
    intro l hk b hb
    have : l = [] := List.eq_nil_of_length_eq_zero (by omega)
    subst this
    rw [chunks_nil] at hb; simp at hb
  | succ k ih =>
    intro l hk b hb
    cases l with
    | nil => rw [chunks_nil] at hb; simp at hb
    | cons t ts =>
      rw [chunks_cons n hn] at hb
      rcases List.mem_cons.mp hb with rfl | hb
      · constructor
        · simp [List.length_take]; omega
        · simp [List.length_take]
      · exact ih ((t :: ts).drop n) (by simp at hk ⊢; omega) b hb

theorem executeParallelGo_retry_success (w : WorkerOracle) :
    ∀ bs : List (List Task), (executeParallelGo true w bs).success = true := by
  intro bs
  induction bs with
  | nil => rfl
  | cons b bs ih =>
    simp only [executeParallelGo, collectBatch_retry_true, if_true]
    exact ih

theorem executeParallelGo_retry_terminal (w : WorkerOracle) :
    ∀ bs : List (List Task), ∀ t' ∈ (executeParallelGo true w bs).tasks,
      t'.status = .completed ∨ t'.status = .failed := by
  intro bs
  induction bs with
  | nil => intro t' ht'; simp [executeParallelGo] at ht'
  | cons b bs ih =>
    intro t' ht'
    simp only [executeParallelGo, collectBatch_retry_true, if_true] at ht'
    rcases List.mem_append.mp ht' with h | h
    · rcases List.mem_map.mp h with ⟨t, _, rfl⟩
      exact runBatchTask_terminal w t
    · exact ih t' h

theorem executeParallelGo_mem (retry : Bool) (w : WorkerOracle) :
    ∀ bs : List (List Task), ∀ t' ∈ (executeParallelGo retry w bs).tasks,
      (t'.status = .completed ∨ t'.status = .failed) ∨ ∃ b ∈ bs, t' ∈ b := by
  intro bs
  induction bs with
  | nil => intro t' ht'; simp [executeParallelGo] at ht'
  | cons b bs ih =>
    intro t' ht'
    simp only [executeParallelGo] at ht'
    by_cases hc : (collectBatch retry (b.map (batchOutcome w))).1 = true
    · rw [if_pos hc] at ht'
      rcases List.mem_append.mp ht' with h | h
      · rcases List.mem_map.mp h with ⟨t, _, rfl⟩
        exact Or.inl (runBatchTask_terminal w t)
      · rcases ih t' h with h1 | ⟨b', hb', hm⟩
        · exact Or.inl h1
        · exact Or.inr ⟨b', List.mem_cons_of_mem b hb', hm⟩
    · rw [if_neg hc] at ht'
      rcases List.mem_append.mp ht' with h | h
      · rcases List.mem_map.mp h with ⟨t, _, rfl⟩
        exact Or.inl (runBatchTask_terminal w t)
      · rcases List.mem_flatten.mp h with ⟨b', hb', hm⟩
        exact Or.inr ⟨b', List.mem_cons_of_mem b hb', hm⟩

/-- Shape of a Parallel run: the final task array is a fully processed
prefix of whole batches followed by the untouched remaining batches, and a
failed overall run means some processed batch contained a rejected worker
call (with retry disabled). -/
theorem executeParallelGo_shape (retry : Bool) (w : WorkerOracle) :
    ∀ bs : List (List Task), ∃ k, k ≤ bs.length ∧
      (executeParallelGo retry w bs).tasks =
        ((bs.take k).map (List.map (runBatchTask w))).flatten ++ (bs.drop k).flatten ∧
      ((executeParallelGo retry w bs).success = false →
        retry = false ∧ ∃ b ∈ bs.take k, ∃ t ∈ b, ∃ e, batchOutcome w t = .error e) := by
  intro bs
  induction bs with
  | nil =>
    exact ⟨0, by omega, rfl, by intro h; simp [executeParallelGo] at h⟩
  | cons b bs ih =>
    by_cases hc : (collectBatch retry (b.map (batchOutcome w))).1 = true
    · rcases ih with ⟨k, hk, hshape, hfail⟩
      refine ⟨k + 1, by simp; omega, ?_, ?_⟩
      · simp only [executeParallelGo, hc, if_true, List.take_succ_cons,
          List.drop_succ_cons, List.map_cons, List.flatten_cons, hshape]
        rw [List.append_assoc]
      · intro hs
        simp only [executeParallelGo, hc, if_true] at hs
        rcases hfail hs with ⟨hr, b', hb', ht⟩
        exact ⟨hr, b', List.mem_cons_of_mem b (by simpa using hb'), ht⟩
    · refine ⟨1, by simp, ?_, ?_⟩
      · simp only [executeParallelGo, hc, if_false, List.take_succ_cons, List.take_zero,
          List.drop_succ_cons, List.drop_zero, List.map_cons, List.map_nil,
          List.flatten_cons, List.flatten_nil, List.append_nil]
        simp
      · intro _
        rcases collectBatch_false retry _ (by simpa using hc) with ⟨hr, e, he⟩
        rcases List.mem_map.mp he with ⟨t, htb, hout⟩
        exact ⟨hr, b, by simp, t, htb, e, hout⟩

theorem executeParallelGo_abort (w : WorkerOracle) :
    ∀ bs : List (List Task),
      (∃ b ∈ bs, ∃ t ∈ b, ∃ e, batchOutcome w t = .error e) →
      (executeParallelGo false w bs).success = false := by
  intro bs
  induction bs with
  | nil => intro h; simp at h
  | cons b bs ih =>
    intro h
    by_cases hc : (collectBatch false (b.map (batchOutcome w))).1 = true
    · simp only [executeParallelGo, hc, if_true]
      rcases h with ⟨b', hb', t, htb, e, hout⟩
      rcases List.mem_cons.mp hb' with rfl | hb'
      · exfalso
        have : (collectBatch false (b'.map (batchOutcome w))).1 = false :=
          collectBatch_false_of_mem _ e (List.mem_map.mpr ⟨t, htb, hout⟩)
        rw [this] at hc
        exact Bool.false_ne_true hc
      · exact ih ⟨b', hb', t, htb, e, hout⟩
    · simp [executeParallelGo, hc]

theorem mem_insertTask (t x : Task) : ∀ l : List Task, x ∈ insertTask t l ↔ x = t ∨ x ∈ l := by
  intro l
  induction l with
  | nil => simp [insertTask]
  | cons u us ih =>
    simp only [insertTask]
    split
    · exact List.mem_cons
    · rw [List.mem_cons, ih]
      rw [List.mem_cons]
      tauto

theorem sortTasks_mem (x : Task) : ∀ l : List Task, x ∈ sortTasks l ↔ x ∈ l := by
  intro l
  induction l with
  | nil => simp [sortTasks]
  | cons t ts ih =>
    have h : sortTasks (t :: ts) = insertTask t (sortTasks ts) := rfl
    rw [h, mem_insertTask, ih]
    exact (List.mem_cons).symm

theorem executeHierarchicalGo_mem (retry : Bool) (lo : LeadOracle) (w : WorkerOracle) :
    ∀ (ts : List Task) (er : ExecResult), executeHierarchicalGo retry lo w ts = .ok er →
      ∀ t' ∈ er.tasks, t'.status = .completed ∨ t'.status = .failed ∨ t' ∈ ts := by
  intro ts
  induction ts with
  | nil =>
    intro er her t' ht'
    simp only [executeHierarchicalGo, Except.ok.injEq] at her
    subst her
    simp at ht'
  | cons t ts ih =>
    intro er her t' ht'
    simp only [executeHierarchicalGo] at her
    cases hg : lo (guidancePrompt t (selectBestAgent t)) false with
    | error e => simp [hg] at her
    | ok g =>
      simp only [hg] at her
      cases hw : w (selectBestAgent t) (hierPrompt t.description g) with
      | ok r =>
        simp only [hw] at her
        cases hrec : executeHierarchicalGo retry lo w ts with
        | error e => simp [hrec] at her
        | ok rest =>
          simp only [hrec, Except.ok.injEq] at her
          subst her
          rcases List.mem_cons.mp ht' with rfl | ht'
          · exact Or.inl rfl
          · rcases ih rest hrec t' ht' with h1 | h1 | h1
            · exact Or.inl h1
            · exact Or.inr (Or.inl h1)
            · exact Or.inr (Or.inr (List.mem_cons_of_mem t h1))
      | error e =>
        simp only [hw] at her
        cases retry with
        | true =>
          rw [if_pos rfl] at her
          cases hrec : executeHierarchicalGo true lo w ts with
          | error e2 => simp [hrec] at her
          | ok rest =>
            simp only [hrec, Except.ok.injEq] at her
            subst her
            rcases List.mem_cons.mp ht' with rfl | ht'
            · exact Or.inr (Or.inl rfl)
            · rcases ih rest hrec t' ht' with h1 | h1 | h1
              · exact Or.inl h1
              · exact Or.inr (Or.inl h1)
              · exact Or.inr (Or.inr (List.mem_cons_of_mem t h1))
        | false =>
          rw [if_neg (by simp)] at her
          simp only [Except.ok.injEq] at her
          subst her
          rcases List.mem_cons.mp ht' with rfl | ht'
          · exact Or.inr (Or.inl rfl)
          · exact Or.inr (Or.inr (List.mem_cons_of_mem t ht'))

theorem executeHierarchicalGo_retry_terminal (lo : LeadOracle) (w : WorkerOracle) :
    ∀ (ts : List Task) (er : ExecResult), executeHierarchicalGo true lo w ts = .ok er →
      ∀ t' ∈ er.tasks, t'.status = .completed ∨ t'.status = .failed := by
  intro ts
  induction ts with
  | nil =>
    intro er her t' ht'
    simp only [executeHierarchicalGo, Except.ok.injEq] at her
    subst her
    simp at ht'
  | cons t ts ih =>
    intro er her t' ht'
    simp only [executeHierarchicalGo] at her
    cases hg : lo (guidancePrompt t (selectBestAgent t)) false with
    | error e => simp [hg] at her
    | ok g =>
      simp only [hg] at her
      cases hw : w (selectBestAgent t) (hierPrompt t.description g) with
      | ok r =>
        simp only [hw] at her
        cases hrec : executeHierarchicalGo true lo w ts with
        | error e => simp [hrec] at her
        | ok rest =>
          simp only [hrec, Except.ok.injEq] at her
          subst her
          rcases List.mem_cons.mp ht' with rfl | ht'
          · exact Or.inl rfl
          · exact ih rest hrec t' ht'
      | error e =>
        simp only [hw, if_true] at her
        cases hrec : executeHierarchicalGo true lo w ts with
        | error e2 => simp [hrec] at her
        | ok rest =>
          simp only [hrec, Except.ok.injEq] at her
          subst her
          rcases List.mem_cons.mp ht' with rfl | ht'
          · exact Or.inr rfl
          · exact ih rest hrec t' ht'

theorem executeHierarchicalGo_retry_success (lo : LeadOracle) (w : WorkerOracle) :
    ∀ (ts : List Task) (er : ExecResult), executeHierarchicalGo true lo w ts = .ok er →
      er.success = true := by
  intro ts
  induction ts with
  | nil =>
    intro er her
    simp only [executeHierarchicalGo, Except.ok.injEq] at her
    subst her
    rfl
  | cons t ts ih =>
    intro er her
    simp only [executeHierarchicalGo] at her
    cases hg : lo (guidancePrompt t (selectBestAgent t)) false with
    | error e => simp [hg] at her
    | ok g =>
      simp only [hg] at her
      cases hw : w (selectBestAgent t) (hierPrompt t.description g) with
      | ok r =>
        simp only [hw] at her
        cases hrec : executeHierarchicalGo true lo w ts with
        | error e => simp [hrec] at her
        | ok rest =>
          simp only [hrec, Except.ok.injEq] at her
          subst her
          exact ih rest hrec
      | error e =>
        simp only [hw, if_true] at her
        cases hrec : executeHierarchicalGo true lo w ts with
        | error e2 => simp [hrec] at her
        | ok rest =>
          simp only [hrec, Except.ok.injEq] at her
          subst her
          exact ih rest hrec

theorem executeCollaborative_mem (retry : Bool) (w : WorkerOracle) :
    ∀ ts : List Task, ∀ t' ∈ (executeCollaborative retry w ts).tasks,
      t'.status = .completed ∨ t'.status = .failed ∨ t' ∈ ts := by
  intro ts
  induction ts with
  | nil => intro t' ht'; simp [executeCollaborative] at ht'
  | cons t ts ih =>
    intro t' ht'
    cases hp : w (selectBestAgent t) t.description with
    | ok pr =>
      cases hs : w (selectSecondaryAgent (selectBestAgent t)) (collabPrompt pr t.description) with
      | ok sr =>
        simp only [executeCollaborative, hp, hs] at ht'
        rcases List.mem_cons.mp ht' with rfl | ht'
        · exact Or.inl rfl
        · rcases ih t' ht' with h1 | h1 | h1
          · exact Or.inl h1
          · exact Or.inr (Or.inl h1)
          · exact Or.inr (Or.inr (List.mem_cons_of_mem t h1))
      | error e =>
        cases retry with
        | true =>
          simp only [executeCollaborative, hp, hs, if_true] at ht'
          rcases List.mem_cons.mp ht' with rfl | ht'
          · exact Or.inr (Or.inl rfl)
          · rcases ih t' ht' with h1 | h1 | h1
            · exact Or.inl h1
            · exact Or.inr (Or.inl h1)
            · exact Or.inr (Or.inr (List.mem_cons_of_mem t h1))
        | false =>
          simp only [executeCollaborative, hp, hs, Bool.false_eq_true, if_false] at ht'
          rcases List.mem_cons.mp ht' with rfl | ht'
          · exact Or.inr (Or.inl rfl)
          · exact Or.inr (Or.inr (List.mem_cons_of_mem t ht'))
    | error e =>
      cases retry with
      | true =>
        simp only [executeCollaborative, hp, if_true] at ht'
        rcases List.mem_cons.mp ht' with rfl | ht'
        · exact Or.inr (Or.inl rfl)
        · rcases ih t' ht' with h1 | h1 | h1
          · exact Or.inl h1
          · exact Or.inr (Or.inl h1)
          · exact Or.inr (Or.inr (List.mem_cons_of_mem t h1))
      | false =>
        simp only [executeCollaborative, hp, Bool.false_eq_true, if_false] at ht'
        rcases List.mem_cons.mp ht' with rfl | ht'
        · exact Or.inr (Or.inl rfl)
        · exact Or.inr (Or.inr (List.mem_cons_of_mem t ht'))

theorem executeCollaborative_retry_terminal (w : WorkerOracle) :
    ∀ ts : List Task, ∀ t' ∈ (executeCollaborative true w ts).tasks,
      t'.status = .completed ∨ t'.status = .failed := by
  intro ts
  induction ts with
  | nil => intro t' ht'; simp [executeCollaborative] at ht'
  | cons t ts ih =>
    intro t' ht'
    cases hp : w (selectBestAgent t) t.description with
    | ok pr =>
      cases hs : w (selectSecondaryAgent (selectBestAgent t)) (collabPrompt pr t.description) with
      | ok sr =>
        simp only [executeCollaborative, hp, hs] at ht'
        rcases List.mem_cons.mp ht' with rfl | ht'
        · exact Or.inl rfl
        · exact ih t' ht'
      | error e =>
        simp only [executeCollaborative, hp, hs, if_true] at ht'
        rcases List.mem_cons.mp ht' with rfl | ht'
        · exact Or.inr rfl
        · exact ih t' ht'
    | error e =>
      simp only [executeCollaborative, hp, if_true] at ht'
      rcases List.mem_cons.mp ht' with rfl | ht'
      · exact Or.inr rfl
      · exact ih t' ht'

theorem executeCollaborative_retry_success (w : WorkerOracle) :
    ∀ ts : List Task, (executeCollaborative true w ts).success = true := by
  intro ts
  induction ts with
  | nil => rfl
  | cons t ts ih =>
    cases hp : w (selectBestAgent t) t.description with
    | ok pr =>
      cases hs : w (selectSecondaryAgent (selectBestAgent t)) (collabPrompt pr t.description) with
      | ok sr => simp only [executeCollaborative, hp, hs]; exact ih
      | error e => simp only [executeCollaborative, hp, hs, if_true]; exact ih
    | error e => simp only [executeCollaborative, hp, if_true]; exact ih

theorem execStrategy_ok_mem (s : OrchestrationStrategy) (lo : LeadOracle)
    (w : WorkerOracle) (ts : List Task) (er : ExecResult)
    (h : execStrategy s lo w ts = .ok er) :
    ∀ t' ∈ er.tasks, t'.status = .completed ∨ t'.status = .failed ∨ t' ∈ ts := by
  cases hst : s.type with
  | sequential =>
    simp only [execStrategy, hst, Except.ok.injEq] at h
    subst h
    exact executeSequential_mem s.retryOnFailure w ts
  | parallel =>
    simp only [execStrategy, hst, Except.ok.injEq] at h
    subst h
    intro t' ht'
    rcases executeParallelGo_mem s.retryOnFailure w (chunks s.maxConcurrency ts) t' ht'
      with h1 | ⟨b, hb, hm⟩
    · rcases h1 with h1 | h1
      · exact Or.inl h1
      · exact Or.inr (Or.inl h1)
    · exact Or.inr (Or.inr (chunks_mem s.maxConcurrency ts.length ts (le_refl _) b hb t' hm))
  | hierarchical =>
    simp only [execStrategy, hst] at h
    intro t' ht'
    rcases executeHierarchicalGo_mem s.retryOnFailure lo w (sortTasks ts) er h t' ht'
      with h1 | h1 | h1
    · exact Or.inl h1
    · exact Or.inr (Or.inl h1)
    · exact Or.inr (Or.inr ((sortTasks_mem t' ts).mp h1))
  | collaborative =>
    simp only [execStrategy, hst, Except.ok.injEq] at h
    subst h
    exact executeCollaborative_mem s.retryOnFailure w ts

theorem execStrategy_retry_terminal (s : OrchestrationStrategy) (lo : LeadOracle)
    (w : WorkerOracle) (ts : List Task) (er : ExecResult)
    (h : execStrategy s lo w ts = .ok er) (hr : s.retryOnFailure = true) :
    ∀ t' ∈ er.tasks, t'.status = .completed ∨ t'.status = .failed := by
  cases hst : s.type with
  | sequential =>
    simp only [execStrategy, hst, hr, Except.ok.injEq] at h
    subst h
    exact executeSequential_retry_terminal w ts
  | parallel =>
    simp only [execStrategy, hst, hr, Except.ok.injEq] at h
    subst h
    exact executeParallelGo_retry_terminal w (chunks s.maxConcurrency ts)
  | hierarchical =>
    simp only [execStrategy, hst, hr] at h
    exact executeHierarchicalGo_retry_terminal lo w (sortTasks ts) er h
  | collaborative =>
    simp only [execStrategy, hst, hr, Except.ok.injEq] at h
    subst h
    exact executeCollaborative_retry_terminal w ts

theorem execStrategy_retry_success (s : OrchestrationStrategy) (lo : LeadOracle)
    (w : WorkerOracle) (ts : List Task) (er : ExecResult)
    (h : execStrategy s lo w ts = .ok er) (hr : s.retryOnFailure = true) :
    er.success = true := by
  cases hst : s.type with
  | sequential =>
    simp only [execStrategy, hst, hr, Except.ok.injEq] at h
    subst h
    exact executeSequential_retry_success w ts
  | parallel =>
    simp only [execStrategy, hst, hr, Except.ok.injEq] at h
    subst h
    exact executeParallelGo_retry_success w (chunks s.maxConcurrency ts)
  | hierarchical =>
    simp only [execStrategy, hst, hr] at h
    exact executeHierarchicalGo_retry_success lo w (sortTasks ts) er h
  | collaborative =>
    simp only [execStrategy, hst, hr, Except.ok.injEq] at h
    subst h
    exact executeCollaborative_retry_success w ts

/-- Inverting a successful `orchestrateTask` run: the breakdown call
resolved, the strategy executor resolved, and the report's task list is
exactly the executor's final task array (cross-validation never alters
it). -/
theorem orchestrateTask_ok_inv (s : OrchestrationStrategy) (lo : LeadOracle)
    (w : WorkerOracle) (d : String) (r : RunReport)
    (h : orchestrateTask s lo w d = .ok r) :
    ∃ analysis er, lo (breakdownPrompt d) true = .ok analysis ∧
      execStrategy s lo w (parseTaskBreakdown analysis d) = .ok er ∧
      r.taskBreakdown = er.tasks := by
  simp only [orchestrateTask] at h
  cases hbd : lo (breakdownPrompt d) true with
  | error e => simp [hbd] at h
  | ok analysis =>
    simp only [hbd] at h
    cases hex : execStrategy s lo w (parseTaskBreakdown analysis d) with
    | error e => simp [hex] at h
    | ok er =>
      simp only [hex] at h
      refine ⟨analysis, er, rfl, hex, ?_⟩
      by_cases hcv : (s.crossValidation && er.success) = true
      · rw [if_pos hcv] at h
        cases hrev : w "reviewer" (validationPrompt er.results) with
        | error e => simp [hrev] at h
        | ok resp =>
          simp only [hrev] at h
          by_cases hp : validationPassed resp = true
          · rw [if_pos hp] at h
            simp only [Except.ok.injEq] at h
            subst h
            rfl
          · rw [if_neg hp] at h
            simp only [Except.ok.injEq] at h
            subst h
            rfl
      · rw [if_neg hcv] at h
        simp only [Except.ok.injEq] at h
        subst h
        rfl

/-- **C2, amended.** In every Run Report `orchestrateTask` returns, no task
ever has status `pending`'s successor `in_progress`; every task is
`completed` or `failed` except tasks that were never dispatched because an
earlier failure aborted the run with `retryOnFailure = false` — those stay
`pending`. With `retryOnFailure = true` every reported task is terminal
(`completed` or `failed`). (`maxConcurrency > 0` is assumed, since the
source's batch loop does not terminate otherwise.) -/
theorem C2_amended (s : OrchestrationStrategy) (lo : LeadOracle) (w : WorkerOracle)
    (d : String) (r : RunReport) (_hmc : 0 < s.maxConcurrency)
    (h : orchestrateTask s lo w d = .ok r) :
    (∀ t ∈ r.taskBreakdown, t.status ≠ .inProgress) ∧
    (s.retryOnFailure = true →
      ∀ t ∈ r.taskBreakdown, t.status = .completed ∨ t.status = .failed) := by
  rcases orchestrateTask_ok_inv s lo w d r h with ⟨analysis, er, hbd, hex, htb⟩
  constructor
  · intro t ht
    rw [htb] at ht
    rcases execStrategy_ok_mem s lo w _ er hex t ht with h1 | h1 | h1
    · simp [h1]
    · simp [h1]
    · simp [parseTaskBreakdown_pending analysis d t h1]
  · intro hr t ht
    rw [htb] at ht
    exact execStrategy_retry_terminal s lo w _ er hex hr t ht

/-- The single task of the concrete run used to witness C2 (amended):
sequential strategy, `retryOnFailure = true`, single decomposed task whose
worker call fails. -/
def c2WitnessTask : Task where
  id := "task-1"
  description := "alpha"
  priority := "medium"
  dependencies := []
  status := .failed
  assignedAgent := some "developer"
  result := some (.err "worker down")

/-- The Run Report of that witness run. -/
def c2WitnessReport : RunReport where
  success := true
  results := []
  taskBreakdown := [c2WitnessTask]
  trace := [.leadCall (breakdownPrompt "d") true, .workerCall "developer" "alpha"]
  validationIssues := []

/-- Witness for C2 (amended): a concrete sequential run with
`retryOnFailure = true` whose only worker call fails. -/
theorem C2_amended_witness :
    (∀ t ∈ c2WitnessReport.taskBreakdown, t.status ≠ .inProgress) ∧
    ((⟨.sequential, 3, true, false⟩ : OrchestrationStrategy).retryOnFailure = true →
      ∀ t ∈ c2WitnessReport.taskBreakdown,
        t.status = .completed ∨ t.status = .failed) :=
  C2_amended ⟨.sequential, 3, true, false⟩ (fun _ _ => .ok "- alpha")
    (fun _ _ => .error "worker down") "d" c2WitnessReport (by decide) (by decide)

/-! ## Claim C5: Parallel batching, barrier, and abort-after-barrier -/

/-- **C5.** The Parallel strategy partitions the task list into contiguous
batches of size `maxConcurrency` (their concatenation restores the list,
every batch is non-empty and at most `maxConcurrency` long; five tasks at
`maxConcurrency = 2` give batch sizes `[2, 2, 1]`); every member of a
dispatched batch reaches a terminal status (the fan-in barrier settles the
whole batch — `Promise.allSettled`); the final task array is a fully
processed prefix of whole batches followed by untouched later batches, so
an abort never happens mid-batch; a run reporting `success = false` means
`retryOnFailure` was false and some processed batch contained a rejected
worker call; and conversely with `retryOnFailure = false` any rejected
worker call in some batch makes the run abort with `success = false`. -/
theorem C5_parallel_batching (retry : Bool) (w : WorkerOracle) (mc : Nat)
    (tasks : List Task) (hmc : 0 < mc) :
    (chunks mc tasks).flatten = tasks ∧
    (∀ b ∈ chunks mc tasks, 0 < b.length ∧ b.length ≤ mc) ∧
    (∀ a b c d e : Task, (chunks 2 [a, b, c, d, e]).map List.length = [2, 2, 1]) ∧
    (∀ b ∈ chunks mc tasks, ∀ t ∈ b,
      (runBatchTask w t).status = .completed ∨ (runBatchTask w t).status = .failed) ∧
    (∃ k, k ≤ (chunks mc tasks).length ∧
      (executeParallel retry w mc tasks).tasks =
        (((chunks mc tasks).take k).map (List.map (runBatchTask w))).flatten ++
          ((chunks mc tasks).drop k).flatten ∧
      ((executeParallel retry w mc tasks).success = false →
        retry = false ∧ ∃ b ∈ (chunks mc tasks).take k, ∃ t ∈ b, ∃ e,
          batchOutcome w t = .error e)) ∧
    ((∃ b ∈ chunks mc tasks, ∃ t ∈ b, ∃ e, batchOutcome w t = .error e) →
      (executeParallel false w mc tasks).success = false) :=
  ⟨chunks_flatten mc hmc tasks.length tasks (le_refl _),
   fun b hb => chunks_sizes mc hmc tasks.length tasks (le_refl _) b hb,
   fun _ _ _ _ _ => rfl,
   fun _ _ t _ => runBatchTask_terminal w t,
   executeParallelGo_shape retry w (chunks mc tasks),
   executeParallelGo_abort w (chunks mc tasks)⟩

/-- Witness for C5: a concrete one-task run at `maxConcurrency = 2`. -/
theorem C5_parallel_batching_witness :
    0 < 2 ∧
    ((chunks 2 [fallbackTask "x"]).flatten = [fallbackTask "x"] ∧
    (∀ b ∈ chunks 2 [fallbackTask "x"], 0 < b.length ∧ b.length ≤ 2) ∧
    (∀ a b c d e : Task, (chunks 2 [a, b, c, d, e]).map List.length = [2, 2, 1]) ∧
    (∀ b ∈ chunks 2 [fallbackTask "x"], ∀ t ∈ b,
      (runBatchTask (fun _ _ => .ok "r") t).status = .completed ∨
        (runBatchTask (fun _ _ => .ok "r") t).status = .failed) ∧
    (∃ k, k ≤ (chunks 2 [fallbackTask "x"]).length ∧
      (executeParallel false (fun _ _ => .ok "r") 2 [fallbackTask "x"]).tasks =
        (((chunks 2 [fallbackTask "x"]).take k).map
          (List.map (runBatchTask (fun _ _ => .ok "r")))).flatten ++
          ((chunks 2 [fallbackTask "x"]).drop k).flatten ∧
      ((executeParallel false (fun _ _ => .ok "r") 2 [fallbackTask "x"]).success = false →
        false = false ∧ ∃ b ∈ (chunks 2 [fallbackTask "x"]).take k, ∃ t ∈ b, ∃ e,
          batchOutcome (fun _ _ => .ok "r") t = .error e)) ∧
    ((∃ b ∈ chunks 2 [fallbackTask "x"], ∃ t ∈ b, ∃ e,
        batchOutcome (fun _ _ => .ok "r") t = .error e) →
      (executeParallel false (fun _ _ => .ok "r") 2 [fallbackTask "x"]).success = false)) :=
  ⟨by decide, C5_parallel_batching false (fun _ _ => .ok "r") 2 [fallbackTask "x"] (by decide)⟩

/-! ## Claim C6: cross-validation verdict -/

/-- **C6.** With cross-validation enabled and the strategy having succeeded,
the reviewer is invoked once (exactly one reviewer validation call is
appended to the trace after the strategy's calls) and the run's final
success flag is true if and only if the lowercased reviewer response
contains "pass" and does not contain "fail"; in particular a response
containing "fail" anywhere forces `success = false` even when every task
completed, and no task is rolled back or re-run (the report's task list is
exactly the executor's final task array and no further worker calls are
made). -/
theorem C6_cross_validation (s : OrchestrationStrategy) (lo : LeadOracle)
    (w : WorkerOracle) (d analysis resp : String) (er : ExecResult)
    (hcv : s.crossValidation = true)
    (hbd : lo (breakdownPrompt d) true = .ok analysis)
    (hex : execStrategy s lo w (parseTaskBreakdown analysis d) = .ok er)
    (hsucc : er.success = true)
    (hrev : w "reviewer" (validationPrompt er.results) = .ok resp) :
    ∃ rep, orchestrateTask s lo w d = .ok rep ∧
      (rep.success = true ↔
        (strIncludes (jsToLower resp) "pass" = true ∧
         strIncludes (jsToLower resp) "fail" = false)) ∧
      rep.taskBreakdown = er.tasks ∧
      rep.trace = .leadCall (breakdownPrompt d) true ::
        (er.trace ++ [.workerCall "reviewer" (validationPrompt er.results)]) := by
  have hb : (s.crossValidation && er.success) = true := by rw [hcv, hsucc]; rfl
  simp only [orchestrateTask, hbd, hex, hb, if_true, hrev]
  by_cases hp : validationPassed resp = true
  · rw [if_pos hp]
    refine ⟨_, rfl, ?_, rfl, by simp⟩
    unfold validationPassed at hp
    simp only [Bool.and_eq_true, Bool.not_eq_true'] at hp
    simpa using hp
  · rw [if_neg hp]
    refine ⟨_, rfl, ?_, rfl, by simp⟩
    constructor
    · intro h
      exact absurd h (by simp)
    · rintro ⟨h1, h2⟩
      exfalso
      apply hp
      unfold validationPassed
      rw [h1, h2]
      rfl

/-- The executor outcome of the concrete run used to witness C6:
sequential strategy on one task, worker resolving with "pass". -/
def c6WitnessExec : ExecResult where
  success := true
  tasks := [{ id := "task-1",
              description := "alpha",
              priority := "medium",
              dependencies := [],
              status := .completed,
              assignedAgent := some "developer",
              result := some (.ok "pass") }]
  results := ["pass"]
  trace := [.workerCall "developer" "alpha"]

/-- Witness for C6: a concrete cross-validated run whose reviewer answers
"pass". -/
theorem C6_cross_validation_witness :
    ∃ rep, orchestrateTask ⟨.sequential, 1, false, true⟩
        (fun _ _ => .ok "- alpha") (fun _ _ => .ok "pass") "d" = .ok rep ∧
      (rep.success = true ↔
        (strIncludes (jsToLower "pass") "pass" = true ∧
         strIncludes (jsToLower "pass") "fail" = false)) ∧
      rep.taskBreakdown = c6WitnessExec.tasks ∧
      rep.trace = .leadCall (breakdownPrompt "d") true ::
        (c6WitnessExec.trace ++
          [.workerCall "reviewer" (validationPrompt c6WitnessExec.results)]) :=
  C6_cross_validation ⟨.sequential, 1, false, true⟩ (fun _ _ => .ok "- alpha")
    (fun _ _ => .ok "pass") "d" "- alpha" "pass" c6WitnessExec rfl rfl
    (by decide) rfl rfl

/-! ## Claim C7: hierarchical priority ordering -/

/-- The comparator order of the hierarchical sort: smaller
`priorityOrder.indexOf` first (urgent before high before medium before
low). -/
def priorLE (a b : Task) : Prop :=
  priorityIndex a.priority ≤ priorityIndex b.priority

theorem insertTask_pairwise (t : Task) (l : List Task)
    (h : List.Pairwise priorLE l) : List.Pairwise priorLE (insertTask t l) := by
  induction l with
  | nil => simp [insertTask, List.pairwise_cons]
  | cons u us ih =>
    rcases List.pairwise_cons.mp h with ⟨hu, hus⟩
    simp only [insertTask]
    split
    · rename_i hle
      refine List.pairwise_cons.mpr ⟨?_, h⟩
      intro v hv
      rcases List.mem_cons.mp hv with rfl | hv
      · exact hle
      · exact le_trans hle (hu v hv)
    · rename_i hgt
      refine List.pairwise_cons.mpr ⟨?_, ih hus⟩
      intro v hv
      rcases (mem_insertTask t v us).mp hv with rfl | hv
      · exact le_of_lt (lt_of_not_le hgt)
      · exact hu v hv

theorem sortTasks_pairwise : ∀ l : List Task, List.Pairwise priorLE (sortTasks l) := by
  intro l
  induction l with
  | nil => simp [sortTasks]
  | cons t ts ih => exact insertTask_pairwise t (sortTasks ts) ih

theorem insertTask_filter (k : Int) (t : Task) :
    ∀ l : List Task,
      (insertTask t l).filter (fun x => priorityIndex x.priority == k) =
        if priorityIndex t.priority == k then
          t :: l.filter (fun x => priorityIndex x.priority == k)
        else l.filter (fun x => priorityIndex x.priority == k) := by
  intro l
  induction l with
  | nil =>
    cases h : priorityIndex t.priority == k <;>
      simp [insertTask, List.filter_cons, h]
  | cons u us ih =>
    simp only [insertTask]
    split
    · rename_i hle
      by_cases ht : priorityIndex t.priority == k
      · simp [List.filter, ht]
      · simp [List.filter, ht]
    · rename_i hgt
      have hul : priorityIndex u.priority < priorityIndex t.priority :=
        lt_of_not_le hgt
      by_cases ht : (priorityIndex t.priority == k) = true
      · have hk : priorityIndex t.priority = k := by simpa using ht
        have hu : (priorityIndex u.priority == k) = false := by
          simp only [beq_eq_false_iff_ne, ne_eq]
          omega
        simp only [List.filter_cons, hu, if_pos ht, ih, ht, if_true]
        simp [hu]
      · have ht' : (priorityIndex t.priority == k) = false := by
          cases h : priorityIndex t.priority == k
          · rfl
          · exact absurd h ht
        simp only [List.filter_cons, ih, ht', if_false]
        cases hu : priorityIndex u.priority == k <;> simp [hu]

theorem sortTasks_filter (k : Int) :
    ∀ l : List Task,
      (sortTasks l).filter (fun x => priorityIndex x.priority == k) =
        l.filter (fun x => priorityIndex x.priority == k) := by
  intro l
  induction l with
  | nil => rfl
  | cons t ts ih =>
    have hs : sortTasks (t :: ts) = insertTask t (sortTasks ts) := rfl
    rw [hs, insertTask_filter k t (sortTasks ts), ih]
    cases ht : priorityIndex t.priority == k <;> simp [List.filter_cons, ht]

/-- Priority-ordering probe task with priority `low` (P4 of the spec). -/
def probeLow : Task where
  id := "t1"
  description := "one"
  priority := "low"
  dependencies := []
  status := .pending

/-- Probe task with priority `urgent`. -/
def probeUrgent : Task where
  id := "t2"
  description := "two"
  priority := "urgent"
  dependencies := []
  status := .pending

/-- Probe task with priority `medium`. -/
def probeMedium : Task where
  id := "t3"
  description := "three"
  priority := "medium"
  dependencies := []
  status := .pending

/-- **C7.** The Hierarchical strategy executes the task list sorted by
priority urgent > high > medium > low with a stable sort: the executor
runs `executeHierarchicalGo` on `sortTasks tasks`; the sorted list is
ordered by the priority comparator; filtering by any comparator value
preserves the original relative order (stability, which pins the sorted
output to the unique stable permutation ECMAScript 2019 `Array.sort`
produces); and on the concrete probe with priorities
`[low, urgent, medium]` the execution order observed through the
worker-call trace is `[urgent, medium, low]`. -/
theorem C7_hierarchical_priority :
    (∀ (retry : Bool) (lo : LeadOracle) (w : WorkerOracle) (ts : List Task),
      executeHierarchical retry lo w ts = executeHierarchicalGo retry lo w (sortTasks ts)) ∧
    (∀ ts : List Task, List.Pairwise priorLE (sortTasks ts)) ∧
    (∀ (ts : List Task) (k : Int),
      (sortTasks ts).filter (fun x => priorityIndex x.priority == k) =
        ts.filter (fun x => priorityIndex x.priority == k)) ∧
    ((executeHierarchical true (fun _ _ => .ok "g") (fun _ _ => .ok "r")
        [probeLow, probeUrgent, probeMedium]).map
      (fun er => er.tasks.map (fun t => (t.description, t.priority))) =
      .ok [("two", "urgent"), ("three", "medium"), ("one", "low")]) ∧
    ((executeHierarchical true (fun _ _ => .ok "g") (fun _ _ => .ok "r")
        [probeLow, probeUrgent, probeMedium]).map (fun er => er.trace) =
      .ok [.leadCall (guidancePrompt probeUrgent "developer") false,
           .workerCall "developer" (hierPrompt "two" "g"),
           .leadCall (guidancePrompt probeMedium "developer") false,
           .workerCall "developer" (hierPrompt "three" "g"),
           .leadCall (guidancePrompt probeLow "developer") false,
           .workerCall "developer" (hierPrompt "one" "g")]) :=
  ⟨fun _ _ _ _ => rfl, sortTasks_pairwise, fun ts k => sortTasks_filter k ts,
   by decide, by decide⟩

/-! ## Claim C10: retryOnFailure=true forces success=true -/

/-- **C10.** When `retryOnFailure` is true, each of the four strategy
executors reports `success = true` for every pattern of task failures —
even when every single task fails (no actual retry is performed; the flag
merely suppresses the abort). With cross-validation disabled the Run
Report's success flag is therefore true despite all tasks having status
`failed`, as the concrete two-task all-failing sequential run shows. -/
theorem C10_retry_success (lo : LeadOracle) (w : WorkerOracle) (ts : List Task)
    (mc : Nat) :
    (executeSequential true w ts).success = true ∧
    (executeParallel true w mc ts).success = true ∧
    (executeCollaborative true w ts).success = true ∧
    (∀ er : ExecResult, executeHierarchical true lo w ts = .ok er →
      er.success = true) ∧
    ((orchestrateTask ⟨.sequential, 3, true, false⟩
        (fun _ _ => .ok "- alpha\n- beta") (fun _ _ => .error "boom") "d").map
      (fun r => (r.success, r.taskBreakdown.map (fun t => t.status))) =
      .ok (true, [.failed, .failed])) :=
  ⟨executeSequential_retry_success w ts,
   executeParallelGo_retry_success w (chunks mc ts),
   executeCollaborative_retry_success w ts,
   fun er h => executeHierarchicalGo_retry_success lo w (sortTasks ts) er h,
   by decide⟩

/-- The hierarchical executor outcome of the concrete run used to witness
C10: one task, guidance resolves, worker rejects, retry flag on. -/
def c10WitnessExec : ExecResult where
  success := true
  tasks := [{ id := "task-1",
              description := "a",
              priority := "medium",
              dependencies := [],
              status := .failed,
              assignedAgent := some "developer",
              result := some (.err "x") }]
  results := []
  trace := [.leadCall (guidancePrompt (fallbackTask "a") "developer") false,
            .workerCall "developer" (hierPrompt "a" "g")]

/-- Witness for C10: concrete all-failing runs under `retryOnFailure = true`
still report success. -/
theorem C10_retry_success_witness :
    (executeSequential true (fun _ _ => .error "x") [fallbackTask "a"]).success = true ∧
    (executeParallel true (fun _ _ => .error "x") 2 [fallbackTask "a"]).success = true ∧
    (executeCollaborative true (fun _ _ => .error "x") [fallbackTask "a"]).success = true ∧
    c10WitnessExec.success = true ∧
    ((orchestrateTask ⟨.sequential, 3, true, false⟩
        (fun _ _ => .ok "- alpha\n- beta") (fun _ _ => .error "boom") "d").map
      (fun r => (r.success, r.taskBreakdown.map (fun t => t.status))) =
      .ok (true, [.failed, .failed])) :=
  ⟨(C10_retry_success (fun _ _ => .ok "g") (fun _ _ => .error "x")
      [fallbackTask "a"] 2).1,
   (C10_retry_success (fun _ _ => .ok "g") (fun _ _ => .error "x")
      [fallbackTask "a"] 2).2.1,
   (C10_retry_success (fun _ _ => .ok "g") (fun _ _ => .error "x")
      [fallbackTask "a"] 2).2.2.1,
   (C10_retry_success (fun _ _ => .ok "g") (fun _ _ => .error "x")
      [fallbackTask "a"] 2).2.2.2.1 c10WitnessExec (by decide),
   (C10_retry_success (fun _ _ => .ok "g") (fun _ _ => .error "x")
      [fallbackTask "a"] 2).2.2.2.2⟩

end Manage
